import Mathlib

/-!
Verification development for the model-viewer draw-call batching engine,
its range/index model, the pick reverse-mapping, and the interaction-driven
visibility culler.

The definitions below are a shallow embedding of the TypeScript source:
* `collectMeshes`, `makeGroupKey`, `batchMeshes`, `unbatch` from the batching
  module (`src/unnamed/part_001`),
* `SelectionController.findOriginalFromMergedIntersection` from
  (`src/unnamed/part_005`, also `src/src/selection.ts`),
* `InteractionCullingController` from `src/src/culling.ts`.

Scene graphs are modelled as lists of mesh records in traversal order;
floating-point quantities that only ever feed comparisons (the world
bounding diagonal, projected pixel radii) are modelled as rationals.
-/

namespace ModelViewer

/-- A source mesh as seen by the batching module: the fields of a
`THREE.Mesh`/`BufferGeometry` that `collectMeshes`, `makeGroupKey`,
`batchMeshes` and `unbatch` actually read or write.  `id` stands for object
identity, `material` for `material.uuid`, `attrs` for
`Object.keys(geometry.attributes)`, `index` for the index buffer contents,
`vertCount` for `geometry.getAttribute('position').count`, `diag` for the
world bounding-box diagonal length, and `hasMorph` for the presence of
morph-target data (`geometry.morphAttributes`), which the collector never
inspects. -/
structure SrcMesh where
  id : Nat
  isMesh : Bool
  visible : Bool
  hasGeometry : Bool
  skinned : Bool
  hasMorph : Bool
  hasMaterial : Bool
  multiMaterial : Bool
  indexed : Bool
  index : List Nat
  vertCount : Nat
  boxEmpty : Bool
  diag : ℚ
  material : Nat
  attrs : List Nat
  isBatchedOriginal : Bool
deriving DecidableEq, Repr

/-- The filter applied by `collectMeshes` (part_001 lines 40-63): a mesh is
kept iff it is a visible mesh with geometry, no skin attributes, a single
(non-array) material, an index buffer, and — when its world box is non-empty —
a bounding diagonal not below `minDiagonal`. -/
def eligibleMesh (minDiagonal : ℚ) (m : SrcMesh) : Bool :=
  m.isMesh && m.visible && m.hasGeometry && !m.skinned &&
  (m.hasMaterial && !m.multiMaterial) && m.indexed &&
  !(!m.boxEmpty && decide (m.diag < minDiagonal))

/-- `collectMeshes` (part_001 lines 40-63): traverse the root and collect the
eligible meshes in traversal order.  Pure read, no writes. -/
def collectMeshes (root : List SrcMesh) (minDiagonal : ℚ) : List SrcMesh :=
  root.filter (eligibleMesh minDiagonal)

/-- `makeGroupKey` (part_001 lines 66-70): material identity plus the sorted
attribute-name layout signature. -/
def makeGroupKey (m : SrcMesh) : Nat × List Nat :=
  (m.material, m.attrs.insertionSort (· ≤ ·))

/-- First-occurrence-order deduplication, as performed by the insertion-order
semantics of the JS `Map` used for grouping (part_001 lines 102-108). -/
def dedupKeepFirst {α : Type} [DecidableEq α] : List α → List α
  | [] => []
  | k :: rest => k :: (dedupKeepFirst rest).filter (fun k2 => decide (k2 ≠ k))

/-- The group keys in insertion order. -/
def groupKeysInOrder (l : List SrcMesh) : List (Nat × List Nat) :=
  dedupKeepFirst (l.map makeGroupKey)

/-- The groups in key-insertion order, each group listing its meshes in
collected order — exactly the iteration order of `groups.forEach`. -/
def groupsOf (l : List SrcMesh) : List (List SrcMesh) :=
  (groupKeysInOrder l).map (fun k => l.filter (fun m => decide (makeGroupKey m = k)))

/-- Options record of `batchMeshes` with the `DEFAULT_OPTS` defaults
(part_001 lines 24-34). -/
structure BatchOptions where
  maxVerticesPerBatch : Nat := 80000
  allow32Bit : Bool := true
  minDiagonalForBatch : ℚ := mkRat 1 2
deriving DecidableEq, Repr

/-- Effective per-batch vertex cap (part_001 line 124): clamped to 65535 when
32-bit indices are not allowed. -/
def maxVertsPerBatch (o : BatchOptions) : Nat :=
  if o.allow32Bit then o.maxVerticesPerBatch else min o.maxVerticesPerBatch 65535

/-- The greedy packing loop of `batchMeshes` (part_001 lines 273-282):
meshes are appended to the current batch, flushing first whenever adding the
mesh would exceed the cap and the current batch is non-empty; a trailing
flush closes the last batch. -/
def packLoop (maxV : Nat) : List SrcMesh → List SrcMesh → Nat → List (List SrcMesh)
  | [], cur, _ => if cur.isEmpty then [] else [cur]
  | m :: rest, cur, curV =>
    if curV + m.vertCount > maxV && !cur.isEmpty then
      cur :: packLoop maxV rest [m] m.vertCount
    else
      packLoop maxV rest (cur ++ [m]) (curV + m.vertCount)

/-- Packing of one group (part_001 lines 117-124, 273-282): sort ascending by
vertex count (JS `Array.prototype.sort` is stable; modelled by the stable
`insertionSort`), then pack greedily. -/
def packGroup (maxV : Nat) (infos : List SrcMesh) : List (List SrcMesh) :=
  packLoop maxV (infos.insertionSort (fun a b => a.vertCount ≤ b.vertCount)) [] 0

/-- `BatchingRangeMeta` (part_001 lines 3-10), with `original` the identity of
the source mesh, `start` the index start and `count` the index count. -/
structure RangeMeta where
  original : Nat
  start : Nat
  count : Nat
deriving DecidableEq, Repr

/-- One merged batch: its Range entries, the contents of its merged index
buffer, and its total vertex count. -/
structure Batch where
  ranges : List RangeMeta
  indexData : List Nat
  totalVerts : Nat
deriving DecidableEq, Repr

/-- The Range entries recorded by the flush loop (part_001 lines 168-241):
each member contributes `{start := iOffset, count := srcIndex.count}` and the
index write offset advances by its index count. -/
def rangesAux : Nat → List SrcMesh → List RangeMeta
  | _, [] => []
  | iOff, m :: rest => ⟨m.id, iOff, m.index.length⟩ :: rangesAux (iOff + m.index.length) rest

/-- The merged index buffer written by the flush loop (part_001 lines
157-159, 209-213): each member's indices are shifted by the running vertex
offset and stored into a `Uint16Array`/`Uint32Array`, i.e. reduced modulo the
element width. -/
def mergedIndexAux (modulus : Nat) : Nat → List SrcMesh → List Nat
  | _, [] => []
  | vOff, m :: rest =>
    m.index.map (fun i => (i + vOff) % modulus) ++ mergedIndexAux modulus (vOff + m.vertCount) rest

/-- Building one merged batch from its members (the `flush` closure,
part_001 lines 126-271): choose 32-bit indices iff allowed and the total
vertex count exceeds 65535, then lay out ranges and the merged index buffer. -/
def buildBatch (allow32 : Bool) (infos : List SrcMesh) : Batch :=
  let totalVerts := (infos.map (·.vertCount)).sum
  let use32 := allow32 && decide (totalVerts > 65535)
  let modulus := if use32 then 2 ^ 32 else 2 ^ 16
  { ranges := rangesAux 0 infos
    indexData := mergedIndexAux modulus 0 infos
    totalVerts := totalVerts }

/-- All merged batches produced by `batchMeshes` (part_001 lines 97-286), in
production order: groups in key-insertion order, each packed greedily, each
pack flushed into one batch. -/
def batches (root : List SrcMesh) (opts : BatchOptions) : List Batch :=
  let collected := collectMeshes root opts.minDiagonalForBatch
  (groupsOf collected).flatMap
    (fun g => (packGroup (maxVertsPerBatch opts) g).map (buildBatch opts.allow32Bit))

/-- The global `ranges` list accumulated across all batches, in push order. -/
def allRanges (root : List SrcMesh) (opts : BatchOptions) : List RangeMeta :=
  (batches root opts).flatMap (·.ranges)

/-- The identities of the source meshes covered by some Range. -/
def batchedIds (root : List SrcMesh) (opts : BatchOptions) : List Nat :=
  (allRanges root opts).map (·.original)

/-- Entry point `batchMeshes` (part_001 lines 97-286): `none` when no mesh is
eligible, otherwise the merged batches and the global range list. -/
def batchMeshes (root : List SrcMesh) (opts : BatchOptions) :
    Option (List Batch × List RangeMeta) :=
  if (collectMeshes root opts.minDiagonalForBatch).isEmpty then none
  else some (batches root opts, allRanges root opts)

/-- The writes `batchMeshes` performs on the scene (part_001 lines 237-240):
every batched original is hidden and tagged `isBatchedOriginal`; everything
else is untouched. -/
def hideBatched (root : List SrcMesh) (ids : List Nat) : List SrcMesh :=
  root.map (fun m =>
    if m.id ∈ ids then { m with visible := false, isBatchedOriginal := true } else m)

/-- `unbatch` (part_001 lines 289-301) as it acts on the original meshes: for
every recorded range the original is made visible again and its
`isBatchedOriginal` tag is deleted.  (The merged meshes added by `batchMeshes`
are removed from the scene and disposed, part_001 lines 291-294, so the scene
handed to a re-run consists of the restored originals alone.) -/
def unbatchScene (scene : List SrcMesh) (ids : List Nat) : List SrcMesh :=
  scene.map (fun m =>
    if m.id ∈ ids then { m with visible := true, isBatchedOriginal := false } else m)

/-- The linear scan of `findOriginalFromMergedIntersection` (part_005 lines
251-259, selection.ts lines 165-175): walk the ranges and return the original
of the first Range whose `[start, start + count)` contains `indexOffset`;
fall back to the merged mesh itself. -/
def scanRanges (mergedId : Nat) (indexOffset : Nat) : List RangeMeta → Nat
  | [] => mergedId
  | r :: rest =>
    if r.start ≤ indexOffset ∧ indexOffset < r.start + r.count then r.original
    else scanRanges mergedId indexOffset rest

/-- The O(n) fallback of `findOriginalFromMergedIntersection` (part_005
lines 250-259): with no ranges or no face index, return the merged mesh
itself, else scan the ranges at `faceIndex * 3`. -/
def mergedFallback (mergedId : Nat) (ranges : Option (List RangeMeta))
    (faceIndex : Option Nat) : Nat :=
  match ranges, faceIndex with
  | some rs, some f => scanRanges mergedId (f * 3) rs
  | _, _ => mergedId

/-- `SelectionController.findOriginalFromMergedIntersection` (part_005 lines
242-260): try the O(1) `faceToOriginal[faceIndex]` lookup first (an
out-of-bounds access yields `undefined` and falls through to the linear
fallback, as does a missing table). -/
def findOriginalFromMergedIntersection (mergedId : Nat)
    (faceToOriginal : Option (List Nat)) (ranges : Option (List RangeMeta))
    (faceIndex : Option Nat) : Nat :=
  match faceToOriginal, faceIndex with
  | some arr, some f => (arr[f]?).getD (mergedFallback mergedId ranges faceIndex)
  | _, _ => mergedFallback mergedId ranges faceIndex

/-- Modelled from the spec: the repository code that builds the
`faceToOriginal` table consumed by `findOriginalFromMergedIntersection`
(part_005 line 244) is not among the shipped sources — the `flush` finalizer
in part_001 attaches only `mergedRanges`.  Spec §3 ("FaceLookup: dense array,
one entry per merged triangle, giving O(1) triangle→SourceMesh resolution")
and §4.3 step 6 ("FaceLookup, built once over all triangles, O(total faces)")
describe it as one entry per triangle of each Range, in range order, each
entry naming the range's source mesh. -/
def faceLookup : List RangeMeta → List Nat
  | [] => []
  | r :: rest => List.replicate (r.count / 3) r.original ++ faceLookup rest

/-- One registered culling entry (culling.ts lines 4, 54-74): the mesh it
tracks (with its `visible` flag and whether it is still parented), the cached
world radius, and this mesh's two hysteresis counters (`stableAbove` /
`stableBelow`; an absent map entry is the count 0). -/
structure CullEntry where
  id : Nat
  radius : ℚ
  hasParent : Bool
  visible : Bool
  stableAbove : Nat
  stableBelow : Nat
deriving DecidableEq, Repr

/-- The classification at culling.ts line 111:
`shouldBeVisible = projectedRadiusPx >= thresholdPx`. -/
def shouldBeVisibleAt (thresholdPx radiusPx : ℚ) : Bool :=
  decide (thresholdPx ≤ radiusPx)

/-- The per-entry body of `InteractionCullingController.update` (culling.ts
lines 111-134), given the entry's projected pixel radius: on agreement with
the current visibility only the opposite counter is cleared; on disagreement
the streak counter for the candidate direction is incremented and the flip
commits (and the counter clears) once it reaches `hysteresisFrames`. -/
def updateEntry (thresholdPx : ℚ) (hysteresisFrames : Nat) (radiusPx : ℚ)
    (e : CullEntry) : CullEntry :=
  let sbv := shouldBeVisibleAt thresholdPx radiusPx
  if sbv = e.visible then
    if sbv then { e with stableBelow := 0 } else { e with stableAbove := 0 }
  else if sbv then
    let n := e.stableAbove + 1
    if n ≥ hysteresisFrames then { e with visible := true, stableAbove := 0 }
    else { e with stableAbove := n }
  else
    let n := e.stableBelow + 1
    if n ≥ hysteresisFrames then { e with visible := false, stableBelow := 0 }
    else { e with stableBelow := n }

/-- The state of an `InteractionCullingController` (culling.ts lines 12-31). -/
structure CullingCtrl where
  enabled : Bool
  pointerActive : Bool
  zoomActive : Bool
  thresholdPx : ℚ
  hysteresisFrames : Nat
  budgetPerFrame : Nat
  pendingDelayFrames : Nat
  cursor : Nat
  frameIndex : Nat
  entries : List CullEntry
deriving DecidableEq, Repr

/-- Apply `f i x` to the elements of a list, passing each element's index. -/
def mapWithIndexFrom {α : Type} (f : Nat → α → α) : Nat → List α → List α
  | _, [] => []
  | i, x :: xs => f i x :: mapWithIndexFrom f (i + 1) xs

/-- `InteractionCullingController.update` (culling.ts lines 78-139), with the
camera projection abstracted into `proj i` — the projected pixel radius of
entry `i` this frame.  A no-op unless enabled, interacting (`pointerActive`
or `zoomActive`) and non-empty; one-frame delay after interaction start; then
the round-robin window `[cursor, min (cursor + budget) length)` is evaluated
(unparented entries are skipped) and the cursor advances, wrapping to 0 at
the end. -/
def update (proj : Nat → ℚ) (c : CullingCtrl) : CullingCtrl :=
  if !c.enabled || !(c.pointerActive || c.zoomActive) || c.entries.isEmpty then c
  else if c.pendingDelayFrames > 0 then
    { c with pendingDelayFrames := c.pendingDelayFrames - 1 }
  else
    let start := c.cursor
    let stop := min (start + c.budgetPerFrame) c.entries.length
    let entries := mapWithIndexFrom
      (fun i e =>
        if start ≤ i ∧ i < stop ∧ e.hasParent then
          updateEntry c.thresholdPx c.hysteresisFrames (proj i) e
        else e) 0 c.entries
    { c with
      entries := entries
      cursor := if stop ≥ c.entries.length then 0 else stop
      frameIndex := c.frameIndex + 1 }

/-- `onInteractionEndVisibilityRestore` (culling.ts lines 141-144): when
enabled, every entry whose mesh is hidden is made visible again; when
disabled it returns immediately. -/
def onInteractionEndVisibilityRestore (c : CullingCtrl) : CullingCtrl :=
  if !c.enabled then c
  else { c with
    entries := c.entries.map (fun e =>
      if !e.visible then { e with visible := true } else e) }

/-- The `pointerdown` listener (culling.ts line 146). -/
def onPointerDown (c : CullingCtrl) : CullingCtrl :=
  { c with pointerActive := true, pendingDelayFrames := 1 }

/-- The `pointerup` listener (culling.ts lines 147-150): interaction ends and
visibility is restored unless a wheel-idle window is still open. -/
def onPointerUp (c : CullingCtrl) : CullingCtrl :=
  let c1 := { c with pointerActive := false }
  if !c1.zoomActive then onInteractionEndVisibilityRestore c1 else c1

/-- Expiry of the wheel-idle timeout (culling.ts lines 154-157): the zoom
window closes and visibility is restored unless the pointer is still held. -/
def onWheelIdleTimeout (c : CullingCtrl) : CullingCtrl :=
  let c1 := { c with zoomActive := false }
  if !c1.pointerActive then onInteractionEndVisibilityRestore c1 else c1

/-- Boolean check that a range list is contiguous starting at `s`: each range
starts exactly where the previous one ended. -/
def contiguousFrom (s : Nat) : List RangeMeta → Bool
  | [] => true
  | r :: rest => r.start == s && contiguousFrom (s + r.count) rest

/-- Boolean check that a range list is sorted by `start`. -/
def sortedByStart : List RangeMeta → Bool
  | [] => true
  | [_] => true
  | r1 :: r2 :: rest => r1.start ≤ r2.start && sortedByStart (r2 :: rest)

/-! ### Structural lemmas about the batch layout -/

theorem contiguousFrom_rangesAux (infos : List SrcMesh) :
    ∀ s, contiguousFrom s (rangesAux s infos) = true := by
  induction infos with
  | nil => intro s; rfl
  | cons m rest ih => intro s; simp [rangesAux, contiguousFrom, ih]

theorem sortedByStart_rangesAux (infos : List SrcMesh) :
    ∀ s, sortedByStart (rangesAux s infos) = true := by
  induction infos with
  | nil => intro s; rfl
  | cons m rest ih =>
    intro s
    cases rest with
    | nil => rfl
    | cons m2 rest2 =>
      have h2 := ih (s + m.index.length)
      simp only [rangesAux, sortedByStart, Bool.and_eq_true, decide_eq_true_eq] at h2 ⊢
      exact ⟨Nat.le_add_right _ _, h2⟩

theorem sum_counts_rangesAux (infos : List SrcMesh) :
    ∀ s, ((rangesAux s infos).map (·.count)).sum = (infos.map (·.index.length)).sum := by
  induction infos with
  | nil => intro s; rfl
  | cons m rest ih => intro s; simp [rangesAux, ih]

theorem length_mergedIndexAux (modulus : Nat) (infos : List SrcMesh) :
    ∀ v, (mergedIndexAux modulus v infos).length = (infos.map (·.index.length)).sum := by
  induction infos with
  | nil => intro v; rfl
  | cons m rest ih => intro v; simp [mergedIndexAux, ih]

theorem mem_rangesAux (infos : List SrcMesh) :
    ∀ s r, r ∈ rangesAux s infos →
      ∃ m ∈ infos, r.original = m.id ∧ r.count = m.index.length := by
  induction infos with
  | nil => intro s r hr; simp [rangesAux] at hr
  | cons m rest ih =>
    intro s r hr
    rcases List.mem_cons.mp hr with h | h
    · exact ⟨m, by simp, by simp [h], by simp [h]⟩
    · obtain ⟨m', hm', h1, h2⟩ := ih _ r h
      exact ⟨m', List.mem_cons_of_mem _ hm', h1, h2⟩

theorem mem_packLoop (maxV : Nat) :
    ∀ (rest cur : List SrcMesh) (curV : Nat) (b : List SrcMesh),
      b ∈ packLoop maxV rest cur curV → ∀ m ∈ b, m ∈ rest ∨ m ∈ cur := by
  intro rest
  induction rest with
  | nil =>
    intro cur curV b hb m hm
    simp only [packLoop] at hb
    split at hb
    · simp at hb
    · simp at hb; subst hb; exact Or.inr hm
  | cons m0 rest ih =>
    intro cur curV b hb m hm
    simp only [packLoop] at hb
    split at hb
    · rcases List.mem_cons.mp hb with h | h
      · subst h; exact Or.inr hm
      · rcases ih _ _ _ h m hm with h2 | h2
        · exact Or.inl (List.mem_cons_of_mem _ h2)
        · simp at h2; subst h2; exact Or.inl (List.mem_cons_self _ _)
    · rcases ih _ _ _ hb m hm with h2 | h2
      · exact Or.inl (List.mem_cons_of_mem _ h2)
      · rcases List.mem_append.mp h2 with h3 | h3
        · exact Or.inr h3
        · simp at h3; subst h3; exact Or.inl (List.mem_cons_self _ _)

theorem subset_of_mem_groupsOf {l : List SrcMesh} {g : List SrcMesh}
    (hg : g ∈ groupsOf l) : ∀ m ∈ g, m ∈ l := by
  obtain ⟨k, _, hk⟩ := List.mem_map.mp hg
  intro m hm
  rw [← hk] at hm
  exact List.mem_of_mem_filter hm

theorem exists_infos_of_mem_batches {root : List SrcMesh} {opts : BatchOptions}
    {b : Batch} (hb : b ∈ batches root opts) :
    ∃ infos : List SrcMesh, b = buildBatch opts.allow32Bit infos ∧
      ∀ m ∈ infos, m ∈ collectMeshes root opts.minDiagonalForBatch := by
  obtain ⟨g, hg, hb2⟩ := List.mem_flatMap.mp hb
  obtain ⟨infos, hinfos, hbuild⟩ := List.mem_map.mp hb2
  refine ⟨infos, hbuild.symm, ?_⟩
  intro m hm
  rcases mem_packLoop _ _ _ _ _ hinfos m hm with h | h
  · exact subset_of_mem_groupsOf hg m ((List.mem_insertionSort _).mp h)
  · simp at h

theorem ranges_buildBatch (allow32 : Bool) (infos : List SrcMesh) :
    (buildBatch allow32 infos).ranges = rangesAux 0 infos := rfl

theorem indexData_length_buildBatch (allow32 : Bool) (infos : List SrcMesh) :
    (buildBatch allow32 infos).indexData.length = (infos.map (·.index.length)).sum := by
  simp only [buildBatch]
  exact length_mergedIndexAux _ infos 0

theorem mem_collectMeshes {root : List SrcMesh} {d : ℚ} {m : SrcMesh} :
    m ∈ collectMeshes root d ↔ m ∈ root ∧ eligibleMesh d m = true :=
  List.mem_filter

theorem visible_of_eligible {d : ℚ} {m : SrcMesh}
    (h : eligibleMesh d m = true) : m.visible = true := by
  simp only [eligibleMesh, Bool.and_eq_true] at h
  tauto

theorem allRanges_from_collected {root : List SrcMesh} {opts : BatchOptions}
    {r : RangeMeta} (hr : r ∈ allRanges root opts) :
    ∃ m ∈ collectMeshes root opts.minDiagonalForBatch,
      r.original = m.id ∧ r.count = m.index.length := by
  obtain ⟨b, hb, hrb⟩ := List.mem_flatMap.mp hr
  obtain ⟨infos, hbuild, hsub⟩ := exists_infos_of_mem_batches hb
  rw [hbuild, ranges_buildBatch] at hrb
  obtain ⟨m, hm, h1, h2⟩ := mem_rangesAux infos 0 r hrb
  exact ⟨m, hsub m hm, h1, h2⟩

/-! ### FaceLookup agrees with the Range linear scan -/

theorem length_faceLookup (rs : List RangeMeta) :
    (faceLookup rs).length = (rs.map (fun r => r.count / 3)).sum := by
  induction rs with
  | nil => rfl
  | cons r rest ih => simp [faceLookup, ih]

theorem three_mul_length_faceLookup (rs : List RangeMeta)
    (h3 : ∀ r ∈ rs, 3 ∣ r.count) :
    3 * (faceLookup rs).length = (rs.map (·.count)).sum := by
  induction rs with
  | nil => rfl
  | cons r rest ih =>
    obtain ⟨k, hk⟩ := h3 r (by simp)
    have ih2 := ih (fun r hr => h3 r (List.mem_cons_of_mem _ hr))
    simp only [faceLookup, List.length_append, List.length_replicate, List.map_cons,
      List.sum_cons]
    omega

theorem faceLookup_getElem (d : Nat) (rs : List RangeMeta) :
    ∀ s g : Nat, contiguousFrom s rs = true → (∀ r ∈ rs, 3 ∣ r.count) →
      g < (faceLookup rs).length →
      (faceLookup rs)[g]? = some (scanRanges d (s + 3 * g) rs) := by
  induction rs with
  | nil => intro s g _ _ hg; simp [faceLookup] at hg
  | cons r rest ih =>
    intro s g hc h3 hg
    obtain ⟨k, hk⟩ := h3 r (by simp)
    simp only [contiguousFrom, Bool.and_eq_true, beq_iff_eq] at hc
    obtain ⟨hstart, hrest⟩ := hc
    have hkd : r.count / 3 = k := by omega
    have hlenfl : (faceLookup (r :: rest)).length = k + (faceLookup rest).length := by
      simp [faceLookup, hkd]
    by_cases hgk : g < k
    · have hglen : g < (List.replicate (r.count / 3) r.original).length := by
        simp [hkd, hgk]
      rw [faceLookup, List.getElem?_append, if_pos hglen,
        List.getElem?_eq_getElem hglen, List.getElem_replicate]
      rw [scanRanges, if_pos ⟨by omega, by omega⟩]
    · push_neg at hgk
      have hlen : ¬ g < (List.replicate (r.count / 3) r.original).length := by
        simp [hkd]; omega
      rw [faceLookup, List.getElem?_append, if_neg hlen, List.length_replicate, hkd]
      rw [scanRanges, if_neg (by omega)]
      have hbound : g - k < (faceLookup rest).length := by
        rw [hlenfl] at hg; omega
      have hrec := ih (s + r.count) (g - k) hrest
        (fun r hr => h3 r (List.mem_cons_of_mem _ hr)) hbound
      have harg : s + r.count + 3 * (g - k) = s + 3 * g := by omega
      rw [harg] at hrec
      exact hrec

/-! ### Batched originals come from the eligible collection -/

theorem collected_of_batchedId {root : List SrcMesh} {opts : BatchOptions}
    (hnd : (root.map (·.id)).Nodup) {m : SrcMesh} (hm : m ∈ root)
    (hid : m.id ∈ batchedIds root opts) :
    m ∈ collectMeshes root opts.minDiagonalForBatch := by
  obtain ⟨r, hr, hro⟩ := List.mem_map.mp hid
  obtain ⟨m', hm', h1, _⟩ := allRanges_from_collected hr
  have hmr : m'.id = m.id := by rw [← h1, hro]
  have heq : m' = m :=
    List.inj_on_of_nodup_map hnd (mem_collectMeshes.mp hm').1 hm hmr
  rwa [heq] at hm'

theorem not_collected_of_invisible (root : List SrcMesh) (d : ℚ) {m : SrcMesh}
    (hv : m.visible = false) : m ∉ collectMeshes root d := by
  intro h
  have := visible_of_eligible (mem_collectMeshes.mp h).2
  rw [hv] at this
  exact Bool.false_ne_true this

theorem unbatch_hideBatched_roundtrip (root : List SrcMesh) (opts : BatchOptions)
    (hnd : (root.map (·.id)).Nodup)
    (hfresh : ∀ m ∈ root, m.isBatchedOriginal = false) :
    unbatchScene (hideBatched root (batchedIds root opts)) (batchedIds root opts) = root := by
  unfold unbatchScene hideBatched
  rw [List.map_map]
  conv_rhs => rw [← List.map_id root]
  refine List.map_congr_left ?_
  intro m hm
  simp only [Function.comp, id]
  by_cases hmem : m.id ∈ batchedIds root opts
  · have hcol := collected_of_batchedId hnd hm hmem
    have hvis : m.visible = true := visible_of_eligible (mem_collectMeshes.mp hcol).2
    have hfr := hfresh m hm
    obtain ⟨i, ms, vis, hgm, sk, mo, hmat, mm, ind, idx, vc, be, dg, mat, ats, tag⟩ := m
    simp only at hvis hfr
    subst hvis hfr
    simp [hmem]
  · simp [hmem]

/-! ### Concrete scenes used to witness the claims -/

/-- A plainly eligible mesh: visible, indexed, single material, no skin or
morph data, world diagonal 10. -/
def mkMesh (i verts : Nat) (idx : List Nat) : SrcMesh :=
  { id := i, isMesh := true, visible := true, hasGeometry := true, skinned := false,
    hasMorph := false, hasMaterial := true, multiMaterial := false, indexed := true,
    index := idx, vertCount := verts, boxEmpty := false, diag := 10, material := 0,
    attrs := [1, 0], isBatchedOriginal := false }

def w1root : List SrcMesh := [mkMesh 0 4 [0, 1, 2, 0, 2, 3], mkMesh 1 3 [0, 1, 2]]

def w1opts : BatchOptions := {}

def w1batch : Batch := (batches w1root w1opts).getD 0 ⟨[], [], 0⟩

/-! ### The claims -/

/-- Claim C1: for every merged batch produced by `batchMeshes`, the Range
entries recorded for that batch, sorted by their start index (they are
recorded already sorted), are contiguous and non-overlapping — the first
starts at 0 and each subsequent range starts exactly where the previous one
ends — and the sum of their `count` fields equals the total index count of
the batch's merged index buffer. -/
theorem claim_c1_batch_ranges (root : List SrcMesh) (opts : BatchOptions) (b : Batch)
    (hb : b ∈ batches root opts) :
    sortedByStart b.ranges = true ∧ contiguousFrom 0 b.ranges = true ∧
      (b.ranges.map (·.count)).sum = b.indexData.length := by
  obtain ⟨infos, hbuild, -⟩ := exists_infos_of_mem_batches hb
  subst hbuild
  refine ⟨?_, ?_, ?_⟩
  · rw [ranges_buildBatch]; exact sortedByStart_rangesAux infos 0
  · rw [ranges_buildBatch]; exact contiguousFrom_rangesAux infos 0
  · rw [ranges_buildBatch, sum_counts_rangesAux, indexData_length_buildBatch]

theorem claim_c1_witness :
    w1batch ∈ batches w1root w1opts ∧
    (sortedByStart w1batch.ranges = true ∧ contiguousFrom 0 w1batch.ranges = true ∧
      (w1batch.ranges.map (·.count)).sum = w1batch.indexData.length) :=
  ⟨by decide, claim_c1_batch_ranges w1root w1opts w1batch (by decide)⟩

/-- Claim C2: for a merged batch whose members have whole triangles (index
counts divisible by 3), the spec's dense per-triangle `FaceLookup` table has
exactly one entry per triangle of the merged index buffer, and for every
triangle ordinal `f` of the batch, resolving through the O(1) lookup path of
`findOriginalFromMergedIntersection` returns exactly what the linear Range
scan returns at index offset `f * 3`.  The table construction itself is
modelled from the spec (see `faceLookup`), since the builder of
`userData.faceToOriginal` is not among the shipped sources. -/
theorem claim_c2_faceLookup_eq_scan (root : List SrcMesh) (opts : BatchOptions)
    (h3 : ∀ m ∈ root, 3 ∣ m.index.length) (b : Batch) (hb : b ∈ batches root opts)
    (mergedId f : Nat) (hf : f < (faceLookup b.ranges).length) :
    findOriginalFromMergedIntersection mergedId (some (faceLookup b.ranges))
        (some b.ranges) (some f)
      = scanRanges mergedId (f * 3) b.ranges ∧
    3 * (faceLookup b.ranges).length = b.indexData.length := by
  obtain ⟨infos, hbuild, hsub⟩ := exists_infos_of_mem_batches hb
  have h3r : ∀ r ∈ b.ranges, 3 ∣ r.count := by
    intro r hr
    rw [hbuild, ranges_buildBatch] at hr
    obtain ⟨m, hm, -, h2⟩ := mem_rangesAux infos 0 r hr
    rw [h2]
    exact h3 m (mem_collectMeshes.mp (hsub m hm)).1
  have hcontig : contiguousFrom 0 b.ranges = true := by
    rw [hbuild, ranges_buildBatch]
    exact contiguousFrom_rangesAux infos 0
  have hget := faceLookup_getElem mergedId b.ranges 0 f hcontig h3r hf
  simp only [Nat.zero_add] at hget
  constructor
  · rw [findOriginalFromMergedIntersection, hget, Option.getD_some, Nat.mul_comm]
  · rw [three_mul_length_faceLookup b.ranges h3r, hbuild, ranges_buildBatch,
      sum_counts_rangesAux, indexData_length_buildBatch]

theorem claim_c2_witness :
    1 < (faceLookup w1batch.ranges).length ∧
    (findOriginalFromMergedIntersection 99 (some (faceLookup w1batch.ranges))
        (some w1batch.ranges) (some 1)
      = scanRanges 99 (1 * 3) w1batch.ranges ∧
    3 * (faceLookup w1batch.ranges).length = w1batch.indexData.length) :=
  ⟨by decide,
    claim_c2_faceLookup_eq_scan w1root w1opts (by decide) w1batch (by decide) 99 1 (by decide)⟩

def c3rangeA : RangeMeta := ⟨1, 0, 30⟩

def c3rangeB : RangeMeta := ⟨2, 30, 60⟩

def c3rangeC : RangeMeta := ⟨3, 90, 60⟩

def c3ranges : List RangeMeta := [c3rangeA, c3rangeB, c3rangeC]

/-- Claim C3, counterexample: with Ranges `[{0,30}, {30,60}, {90,60}]` a ray
hit on triangle ordinal 37 — index offset `37 * 3 = 111` — does NOT resolve to
the source mesh of the Range `{start := 30, count := 60}`, because 111 lies
outside `[30, 90)`. -/
theorem claim_c3_counterexample :
    findOriginalFromMergedIntersection 0 none (some c3ranges) (some 37)
      ≠ c3rangeB.original := by decide

/-- Claim C3, amended: index offset 111 lies in `[90, 150)`, so ordinal 37
resolves to the Range `{start := 90, count := 60}`; an ordinal whose offset
lies in `[30, 90)` — e.g. ordinal 20, offset 60 — resolves to
`{start := 30, count := 60}`. -/
theorem claim_c3_amended :
    findOriginalFromMergedIntersection 0 none (some c3ranges) (some 37)
      = c3rangeC.original ∧
    findOriginalFromMergedIntersection 0 none (some c3ranges) (some 20)
      = c3rangeB.original := by decide

def c4root : List SrcMesh := (List.range 200).map (fun i => mkMesh i 1000 [0, 1, 2])

def c4opts : BatchOptions := { maxVerticesPerBatch := 20000 }

set_option maxRecDepth 100000 in
/-- Claim C4: 200 eligible meshes of 1000 vertices each, all sharing one
group key, with a 20000-vertex cap, produce exactly 10 merged batches and
200 Range entries in total. -/
theorem claim_c4_greedy_packing :
    (batchMeshes c4root c4opts).isSome = true ∧
    (batches c4root c4opts).length = 10 ∧
    (allRanges c4root c4opts).length = 200 := by decide

/-- Claim C5: the per-entry classification of the visibility culler uses
`>=` semantics — a projected radius exactly equal to the threshold makes a
Visible-candidate, strictly below makes a Hidden-candidate, strictly above a
Visible-candidate. -/
theorem claim_c5_threshold_boundary (t r s : ℚ) (hr : r < t) (hs : t < s) :
    shouldBeVisibleAt t t = true ∧ shouldBeVisibleAt t r = false ∧
      shouldBeVisibleAt t s = true := by
  refine ⟨by simp [shouldBeVisibleAt], ?_, ?_⟩
  · simp only [shouldBeVisibleAt, decide_eq_false_iff_not, not_le]
    exact hr
  · simp only [shouldBeVisibleAt, decide_eq_true_eq]
    exact le_of_lt hs

theorem claim_c5_witness :
    (40 : ℚ) < 50 ∧ (50 : ℚ) < 60 ∧
    (shouldBeVisibleAt 50 50 = true ∧ shouldBeVisibleAt 50 40 = false ∧
      shouldBeVisibleAt 50 60 = true) :=
  ⟨by norm_num, by norm_num,
    claim_c5_threshold_boundary 50 40 60 (by norm_num) (by norm_num)⟩

def c6entry : CullEntry :=
  { id := 0, radius := 1, hasParent := true, visible := true,
    stableAbove := 0, stableBelow := 0 }

/-- Claim C6: with threshold 50 px and 2 hysteresis frames, a visible entry
evaluated at 40 px flips to hidden on the second consecutive evaluation, not
the first; and an under-threshold evaluation followed by an over-threshold
one causes no flip and discards the pending streak. -/
theorem claim_c6_hysteresis :
    (updateEntry 50 2 40 c6entry).visible = true ∧
    (updateEntry 50 2 40 c6entry).stableBelow = 1 ∧
    (updateEntry 50 2 40 (updateEntry 50 2 40 c6entry)).visible = false ∧
    (updateEntry 50 2 60 (updateEntry 50 2 40 c6entry)).visible = true ∧
    (updateEntry 50 2 60 (updateEntry 50 2 40 c6entry)).stableBelow = 0 := by decide

def c7entry : CullEntry :=
  { id := 0, radius := 1, hasParent := true, visible := false,
    stableAbove := 0, stableBelow := 0 }

/-- A controller that hid `c7entry` while it was enabled, was then disabled
mid-interaction (reachable through the UI: the culling toggle is clicked
inside the wheel-idle window, whose pointerup fires while `zoomActive` still
holds, so no restore happens before `enabled` is cleared — and the restore
call made by the toggle handler right after setting `enabled = false` is
itself guarded out), and whose wheel-idle window now expires. -/
def c7state : CullingCtrl :=
  { enabled := false, pointerActive := false, zoomActive := true,
    thresholdPx := 50, hysteresisFrames := 2, budgetPerFrame := 400,
    pendingDelayFrames := 0, cursor := 0, frameIndex := 0, entries := [c7entry] }

/-- Claim C7, failing evaluation: when the wheel-idle window expires on the
disabled controller, interaction has ended (`pointerActive` and `zoomActive`
both false) yet the hidden registered entry stays hidden, because
`onInteractionEndVisibilityRestore` returns early when `enabled` is false;
subsequent `update` ticks are no-ops, so the entry is hidden permanently. -/
theorem claim_c7_restore_skipped_when_disabled :
    ((onWheelIdleTimeout c7state).entries.map (·.visible)) = [false] ∧
    (onWheelIdleTimeout c7state).pointerActive = false ∧
    (onWheelIdleTimeout c7state).zoomActive = false ∧
    update (fun _ => 0) (onWheelIdleTimeout c7state) = onWheelIdleTimeout c7state := by
  decide

/-- Claim C8: unbatching and re-running batching on the same unchanged
source meshes reproduces the very same batches and the very same Range list
(hence in particular an equal set of Ranges by membership, with identical
per-mesh index counts), provided mesh identities are distinct and no mesh
was pre-tagged as a batched original. -/
theorem claim_c8_rebatch_reproduces_ranges (root : List SrcMesh) (opts : BatchOptions)
    (hnd : (root.map (·.id)).Nodup)
    (hfresh : ∀ m ∈ root, m.isBatchedOriginal = false) :
    allRanges (unbatchScene (hideBatched root (batchedIds root opts))
        (batchedIds root opts)) opts
      = allRanges root opts ∧
    batches (unbatchScene (hideBatched root (batchedIds root opts))
        (batchedIds root opts)) opts
      = batches root opts := by
  rw [unbatch_hideBatched_roundtrip root opts hnd hfresh]
  exact ⟨rfl, rfl⟩

theorem claim_c8_witness :
    (w1root.map (·.id)).Nodup ∧
    (allRanges (unbatchScene (hideBatched w1root (batchedIds w1root w1opts))
        (batchedIds w1root w1opts)) w1opts
      = allRanges w1root w1opts ∧
    batches (unbatchScene (hideBatched w1root (batchedIds w1root w1opts))
        (batchedIds w1root w1opts)) w1opts
      = batches w1root w1opts) :=
  ⟨by decide, claim_c8_rebatch_reproduces_ranges w1root w1opts (by decide) (by decide)⟩

/-- A mesh carrying morph-target data but no skin attributes, otherwise
plainly eligible. -/
def c9mesh : SrcMesh := { mkMesh 7 3 [0, 1, 2] with hasMorph := true }

/-- Claim C9, failing evaluation: `collectMeshes` only tests the
`skinIndex`/`skinWeight` attributes, although its own comment says morph
targets are to be skipped too — so a mesh with morph-target data and no skin
attributes is collected and ends up in a batch and a Range, contradicting
the claim that meshes with morph-target data appear in no batch and no
Range. -/
theorem claim_c9_morph_not_excluded :
    c9mesh.hasMorph = true ∧
    c9mesh ∈ collectMeshes [c9mesh] (mkRat 1 2) ∧
    (allRanges [c9mesh] {}).map (·.original) = [7] ∧
    (batchMeshes [c9mesh] {}).isSome = true := by decide

/-- Claim C10: a mesh whose `visible` flag is false at build time is never
collected, owns no Range in any merged batch, and survives `batchMeshes`'
scene writes untouched — neither hidden nor tagged. -/
theorem claim_c10_invisible_untouched (root : List SrcMesh) (opts : BatchOptions)
    (m : SrcMesh) (hm : m ∈ root) (hv : m.visible = false)
    (hnd : (root.map (·.id)).Nodup) :
    m ∉ collectMeshes root opts.minDiagonalForBatch ∧
    (∀ r ∈ allRanges root opts, r.original ≠ m.id) ∧
    m ∈ hideBatched root (batchedIds root opts) := by
  have hnc := not_collected_of_invisible root opts.minDiagonalForBatch hv
  refine ⟨hnc, ?_, ?_⟩
  · intro r hr heq
    obtain ⟨m', hm', h1, -⟩ := allRanges_from_collected hr
    rw [h1] at heq
    have heq2 : m' = m :=
      List.inj_on_of_nodup_map hnd (mem_collectMeshes.mp hm').1 hm heq
    rw [heq2] at hm'
    exact hnc hm'
  · have hnid : m.id ∉ batchedIds root opts := by
      intro hid
      exact hnc (collected_of_batchedId hnd hm hid)
    unfold hideBatched
    exact List.mem_map.mpr ⟨m, hm, by simp [hnid]⟩

def w10invisible : SrcMesh := { mkMesh 5 3 [0, 1, 2] with visible := false }

def w10root : List SrcMesh := [mkMesh 0 4 [0, 1, 2, 0, 2, 3], w10invisible]

theorem claim_c10_witness :
    (w10invisible ∈ w10root ∧ w10invisible.visible = false ∧
      (w10root.map (·.id)).Nodup) ∧
    w10invisible ∉ collectMeshes w10root ({} : BatchOptions).minDiagonalForBatch ∧
    w10invisible ∈ hideBatched w10root (batchedIds w10root {}) :=
  ⟨⟨by decide, by decide, by decide⟩,
    (claim_c10_invisible_untouched w10root {} w10invisible
      (by decide) (by decide) (by decide)).1,
    (claim_c10_invisible_untouched w10root {} w10invisible
      (by decide) (by decide) (by decide)).2.2⟩

end ModelViewer
